import Mathlib

/-! Formal model of the template-literal extractor script `temp_extract.py`.

The script reads a source file, finds the first occurrence of the marker
string, scans forward tracking an escape flag toggled by backslashes until
an unescaped backtick, and writes the collected characters wrapped in a
fixed template to an output file.  Texts are modelled as `List Char`. -/

/-- The backtick delimiter character. -/
def backtick : Char := Char.ofNat 96

/-- The backslash escape character. -/
def backslash : Char := '\\'

/-- The fixed marker searched for in the input text: the Python variable
`marker = "const js = `"`. -/
def markerS : List Char := "const js = `".data

/-- One step of the escape-flag update performed by the scan loop: a
backslash toggles the flag, any other processed character clears it. -/
def escStep (e : Bool) (ch : Char) : Bool :=
  if ch = backslash then !e else false

/-- Escape flag after the loop has processed all characters of `s`,
starting from flag value `e`. -/
def escAfter (s : List Char) (e : Bool) : Bool :=
  s.foldl escStep e

/-- The scan loop (`while i < len(data)` in the source): returns the
collected characters up to, and excluding, the first unescaped backtick, or
`none` when the input is exhausted first (the `while`/`else` branch raising
`RuntimeError`). -/
def scan : List Char → Bool → Option (List Char)
  | [], _ => none
  | ch :: rest, escaped =>
    if ch = backslash then
      (scan rest (!escaped)).map (fun t => ch :: t)
    else if ch = backtick ∧ escaped = false then
      some []
    else
      (scan rest false).map (fun t => ch :: t)

/-- Variant scan following the claim wording that the escape flag is
cleared before the delimiter check is performed: by the time the delimiter
check runs the flag is always clear, so every backtick terminates.  Written
for comparison with `scan`, which models the code. -/
def scanClearFirst : List Char → Bool → Option (List Char)
  | [], _ => none
  | ch :: rest, escaped =>
    if ch = backslash then
      (scanClearFirst rest (!escaped)).map (fun t => ch :: t)
    else if ch = backtick then
      some []
    else
      (scanClearFirst rest false).map (fun t => ch :: t)

/-- Boolean test that `p` is an initial segment of the second list; used by
the substring search that models Python `str.index`. -/
def startsWith : List Char → List Char → Bool
  | [], _ => true
  | _ :: _, [] => false
  | p :: ps, c :: cs => if p = c then startsWith ps cs else false

/-- Index of the first occurrence of `pat` inside the second list; models
Python `data.index(pat)` with failure as `none` instead of `ValueError`. -/
def findSub (pat : List Char) : List Char → Option Nat
  | [] => if pat = [] then some 0 else none
  | ch :: rest =>
    if startsWith pat (ch :: rest) then some 0
    else (findSub pat rest).map (fun i => i + 1)

/-- The two failure modes of the script: the `ValueError` raised by
`data.index` when the marker is absent, and the `RuntimeError` raised when
no closing backtick is found. -/
inductive ExtractError where
  | markerNotFound
  | delimiterNotFound
deriving DecidableEq

/-- Diagnostic message attached to each error: Python attaches
"substring not found" to the `ValueError` from `str.index`, and the script
raises `RuntimeError('No closing backtick found')`. -/
def ExtractError.message : ExtractError → String
  | .markerNotFound => "substring not found"
  | .delimiterNotFound => "No closing backtick found"

/-- The extraction pipeline of the script: locate the marker, then scan
from the position immediately after it with a clear escape flag. -/
def extract (data : List Char) : Except ExtractError (List Char) :=
  match findSub markerS data with
  | none => .error .markerNotFound
  | some i =>
    match scan (data.drop (i + markerS.length)) false with
    | none => .error .delimiterNotFound
    | some content => .ok content

/-- Fixed opening piece of the generated output file. -/
def fixedPrologue : List Char := "const js = `".data

/-- Fixed closing sequence of the generated output file. -/
def fixedClosing : List Char := "`;\n".data

/-- Fixed print statement ending the generated output file. -/
def fixedPrintStmt : List Char := "console.log(js);\n".data

/-- Content of the output file `temp_eval.js` written on success: the
f-string of the final `write_text` line. -/
def outputText (content : List Char) : List Char :=
  fixedPrologue ++ content ++ fixedClosing ++ fixedPrintStmt

/-- The two files the script touches: the content of `src/index.ts`
(read-only input) and the content of `temp_eval.js` (`none` if absent). -/
structure FSState where
  input : List Char
  output : Option (List Char)
deriving DecidableEq

/-- One run of the script over the file-system state: on success the output
file is created or overwritten, on failure the error propagates and no
file is written. -/
def runOnce (s : FSState) : FSState × Option ExtractError :=
  match extract s.input with
  | .error e => (s, some e)
  | .ok c => (⟨s.input, some (outputText c)⟩, none)

theorem escAfter_nil (e : Bool) : escAfter [] e = e := rfl

theorem escAfter_cons (a : Char) (l : List Char) (e : Bool) :
    escAfter (a :: l) e = escAfter l (escStep e a) := rfl

theorem startsWith_iff (p : List Char) :
    ∀ s : List Char, startsWith p s = true ↔ ∃ t, s = p ++ t := by
  induction p with
  | nil =>
    intro s
    simp [startsWith]
  | cons a ps ih =>
    intro s
    cases s with
    | nil =>
      simp [startsWith]
    | cons b cs =>
      simp only [startsWith]
      constructor
      · intro h
        split at h
        · obtain ⟨t, ht⟩ := (ih cs).1 h
          subst ht
          rename_i hab
          exact ⟨t, by simp [hab]⟩
        · exact absurd h (by simp)
      · rintro ⟨t, ht⟩
        have hb : b = a ∧ cs = ps ++ t := by
          injection ht with h1 h2
          exact ⟨h1, h2⟩
        obtain ⟨rfl, rfl⟩ := hb
        rw [if_pos rfl]
        exact (ih (ps ++ t)).2 ⟨t, rfl⟩

theorem findSub_some_spec (pat : List Char) :
    ∀ (data : List Char) (i : Nat), findSub pat data = some i →
      ∃ pre suf, data = pre ++ pat ++ suf ∧ pre.length = i ∧
        ∀ p s, data = p ++ pat ++ s → i ≤ p.length := by
  intro data
  induction data with
  | nil =>
    intro i h
    simp only [findSub] at h
    split at h
    · rename_i hpat
      cases h
      exact ⟨[], [], by simp [hpat], rfl, fun _ _ _ => Nat.zero_le _⟩
    · exact absurd h (by simp)
  | cons ch rest ih =>
    intro i h
    simp only [findSub] at h
    split at h
    · rename_i hsw
      cases h
      obtain ⟨t, ht⟩ := (startsWith_iff pat (ch :: rest)).1 hsw
      exact ⟨[], t, by simpa using ht, rfl, fun _ _ _ => Nat.zero_le _⟩
    · rename_i hsw
      obtain ⟨j, hj, rfl⟩ := Option.map_eq_some'.1 h
      obtain ⟨pre, suf, hsplit, hlen, hmin⟩ := ih j hj
      refine ⟨ch :: pre, suf, by simp [hsplit], by simp [hlen], ?_⟩
      intro p s hps
      cases p with
      | nil =>
        exact absurd ((startsWith_iff pat (ch :: rest)).2 ⟨s, by simpa using hps⟩) hsw
      | cons c p' =>
        have h2 : rest = p' ++ pat ++ s := by
          injection hps with h1 h2
        have := hmin p' s h2
        simpa using Nat.succ_le_succ this

theorem findSub_none_spec (pat : List Char) :
    ∀ data : List Char, findSub pat data = none →
      ∀ pre suf, data ≠ pre ++ pat ++ suf := by
  intro data
  induction data with
  | nil =>
    intro h pre suf hps
    simp only [findSub] at h
    split at h
    · exact absurd h (by simp)
    · rename_i hpat
      obtain ⟨h3, -⟩ := List.append_eq_nil.1 hps.symm
      exact hpat (List.append_eq_nil.1 h3).2
  | cons ch rest ih =>
    intro h pre suf hps
    simp only [findSub] at h
    split at h
    · exact absurd h (by simp)
    · rename_i hsw
      have hmap : findSub pat rest = none := by
        cases hfr : findSub pat rest with
        | none => rfl
        | some j => rw [hfr] at h; exact absurd h (by simp)
      cases pre with
      | nil =>
        exact hsw ((startsWith_iff pat (ch :: rest)).2 ⟨suf, by simpa using hps⟩)
      | cons c p' =>
        have h2 : rest = p' ++ pat ++ suf := by
          injection hps with h1 h2
        exact ih hmap p' suf h2

theorem exists_findSub_of_occurs (pat data pre suf : List Char)
    (h : data = pre ++ pat ++ suf) : ∃ i, findSub pat data = some i := by
  cases hf : findSub pat data with
  | none => exact absurd h (findSub_none_spec pat data hf pre suf)
  | some i => exact ⟨i, rfl⟩

theorem scan_sound : ∀ (s : List Char) (e : Bool) (c : List Char),
    scan s e = some c →
    (∃ rest, s = c ++ backtick :: rest) ∧ escAfter c e = false ∧
      ∀ p q, c = p ++ backtick :: q → escAfter p e = true := by
  intro s
  induction s with
  | nil =>
    intro e c h
    exact absurd h (by simp [scan])
  | cons ch rest ih =>
    intro e c h
    simp only [scan] at h
    split at h
    · rename_i hbs
      obtain ⟨c', hc', rfl⟩ := Option.map_eq_some'.1 h
      obtain ⟨⟨r, hr⟩, hesc, hin⟩ := ih (!e) c' hc'
      refine ⟨⟨r, by rw [hr]; rfl⟩, ?_, ?_⟩
      · rw [escAfter_cons, escStep, if_pos hbs]
        exact hesc
      · intro p q hpq
        cases p with
        | nil =>
          have : ch = backtick := by injection hpq
          rw [hbs] at this
          exact absurd this (by decide)
        | cons a p' =>
          have ha : a = ch ∧ c' = p' ++ backtick :: q := by
            injection hpq with h1 h2
            exact ⟨h1.symm, h2⟩
          obtain ⟨rfl, hc2⟩ := ha
          rw [escAfter_cons, escStep, if_pos hbs]
          exact hin p' q hc2
    · split at h
      · rename_i hbs hbt
        cases h
        exact ⟨⟨rest, by simp [hbt.1]⟩, hbt.2, by intro p q hpq; cases p <;> simp at hpq⟩
      · rename_i hbs hbt
        obtain ⟨c', hc', rfl⟩ := Option.map_eq_some'.1 h
        obtain ⟨⟨r, hr⟩, hesc, hin⟩ := ih false c' hc'
        refine ⟨⟨r, by rw [hr]; rfl⟩, ?_, ?_⟩
        · rw [escAfter_cons, escStep, if_neg hbs]
          exact hesc
        · intro p q hpq
          cases p with
          | nil =>
            have hch : ch = backtick := by injection hpq
            have he : e = true := by
              cases e with
              | false => exact absurd ⟨hch, rfl⟩ hbt
              | true => rfl
            rw [escAfter_nil, he]
          | cons a p' =>
            have ha : a = ch ∧ c' = p' ++ backtick :: q := by
              injection hpq with h1 h2
              exact ⟨h1.symm, h2⟩
            obtain ⟨rfl, hc2⟩ := ha
            rw [escAfter_cons, escStep, if_neg hbs]
            exact hin p' q hc2

theorem scan_none_of (s : List Char) (e : Bool)
    (h : ∀ p q, s = p ++ backtick :: q → escAfter p e = true) :
    scan s e = none := by
  cases hs : scan s e with
  | none => rfl
  | some c =>
    obtain ⟨⟨rest, hr⟩, hesc, -⟩ := scan_sound s e c hs
    rw [h c rest hr] at hesc
    exact absurd hesc (by simp)

theorem scan_min : ∀ (s : List Char) (e : Bool) (c : List Char),
    scan s e = some c →
    ∀ p r2, s = p ++ backtick :: r2 → escAfter p e = false → c.length ≤ p.length := by
  intro s
  induction s with
  | nil =>
    intro e c h
    exact absurd h (by simp [scan])
  | cons ch rest ih =>
    intro e c h p r2 hp hesc
    simp only [scan] at h
    split at h
    · rename_i hbs
      obtain ⟨c', hc', rfl⟩ := Option.map_eq_some'.1 h
      cases p with
      | nil =>
        have : ch = backtick := by injection hp
        rw [hbs] at this
        exact absurd this (by decide)
      | cons a p' =>
        have ha : a = ch ∧ rest = p' ++ backtick :: r2 := by
          injection hp with h1 h2
          exact ⟨h1.symm, h2⟩
        obtain ⟨rfl, hr2⟩ := ha
        rw [escAfter_cons, escStep, if_pos hbs] at hesc
        simpa using Nat.succ_le_succ (ih (!e) c' hc' p' r2 hr2 hesc)
    · split at h
      · cases h
        exact Nat.zero_le _
      · rename_i hbs hbt
        obtain ⟨c', hc', rfl⟩ := Option.map_eq_some'.1 h
        cases p with
        | nil =>
          have hch : ch = backtick := by injection hp
          rw [escAfter_nil] at hesc
          exact absurd ⟨hch, hesc⟩ hbt
        | cons a p' =>
          have ha : a = ch ∧ rest = p' ++ backtick :: r2 := by
            injection hp with h1 h2
            exact ⟨h1.symm, h2⟩
          obtain ⟨rfl, hr2⟩ := ha
          rw [escAfter_cons, escStep, if_neg hbs] at hesc
          simpa using Nat.succ_le_succ (ih false c' hc' p' r2 hr2 hesc)

theorem no_backtick_no_split (s : List Char) (h : backtick ∉ s) :
    ∀ p q, s = p ++ backtick :: q → escAfter p false = true := by
  intro p q hpq
  exact absurd (by rw [hpq]; simp) h

theorem escAfter_replicate : ∀ (n : Nat) (e : Bool),
    escAfter (List.replicate n backslash) e = if n % 2 = 1 then !e else e := by
  intro n
  induction n with
  | zero =>
    intro e
    simp [escAfter_nil]
  | succ m ih =>
    intro e
    rw [List.replicate_succ, escAfter_cons]
    simp only [escStep, if_true]
    rw [ih]
    rcases Nat.mod_two_eq_zero_or_one m with hm | hm
    · have h1 : (m + 1) % 2 = 1 := by omega
      simp [hm, h1]
    · have h1 : (m + 1) % 2 = 0 := by omega
      simp [hm, h1]

theorem scan_replicate : ∀ (n : Nat) (e : Bool) (rest : List Char),
    scan (List.replicate n backslash ++ rest) e =
      (scan rest (escAfter (List.replicate n backslash) e)).map
        (fun t => List.replicate n backslash ++ t) := by
  intro n
  induction n with
  | zero =>
    intro e rest
    simp [escAfter_nil]
  | succ m ih =>
    intro e rest
    rw [List.replicate_succ, List.cons_append]
    simp only [scan, if_true]
    rw [ih (!e) rest, Option.map_map, escAfter_cons]
    simp only [escStep, if_true]
    rfl

/-- C1: for every source text containing the marker, extraction starts at
the position immediately following the first occurrence of the marker, and
on success returns exactly the characters scanned from that position up to
but not including the first terminating unescaped backtick. -/
theorem extract_after_first_marker (data pre suf content : List Char)
    (hocc : data = pre ++ markerS ++ suf)
    (hok : extract data = .ok content) :
    ∃ i pre0 suf0,
      findSub markerS data = some i ∧
      data = pre0 ++ markerS ++ suf0 ∧ pre0.length = i ∧
      (∀ p s, data = p ++ markerS ++ s → i ≤ p.length) ∧
      (∃ rest, suf0 = content ++ backtick :: rest) ∧
      escAfter content false = false ∧
      (∀ p q, content = p ++ backtick :: q → escAfter p false = true) := by
  obtain ⟨i, hi⟩ := exists_findSub_of_occurs markerS data pre suf hocc
  obtain ⟨pre0, suf0, hsplit, hlen, hmin⟩ := findSub_some_spec markerS data i hi
  have hdrop : data.drop (i + markerS.length) = suf0 := by
    rw [hsplit]
    have h2 : i + markerS.length = (pre0 ++ markerS).length := by
      rw [List.length_append, hlen]
    rw [h2, List.drop_left]
  simp only [extract, hi, hdrop] at hok
  cases hscan : scan suf0 false with
  | none =>
    rw [hscan] at hok
    exact absurd hok (by simp)
  | some c =>
    rw [hscan] at hok
    have hc : c = content := by injection hok
    subst hc
    obtain ⟨⟨rest, hr⟩, hesc, hin⟩ := scan_sound suf0 false c hscan
    exact ⟨i, pre0, suf0, hi, hsplit, hlen, hmin, ⟨rest, hr⟩, hesc, hin⟩

/-- C1 witness at a concrete input. -/
theorem extract_after_first_marker_w :
    ∃ i pre0 suf0,
      findSub markerS "const js = `abc`".data = some i ∧
      "const js = `abc`".data = pre0 ++ markerS ++ suf0 ∧ pre0.length = i ∧
      (∀ p s, "const js = `abc`".data = p ++ markerS ++ s → i ≤ p.length) ∧
      (∃ rest, suf0 = "abc".data ++ backtick :: rest) ∧
      escAfter "abc".data false = false ∧
      (∀ p q, "abc".data = p ++ backtick :: q → escAfter p false = true) :=
  extract_after_first_marker ("const js = `abc`".data) [] ("abc`".data)
    ("abc".data) rfl rfl

/-- C2: whenever extraction succeeds, the output file content is exactly
the fixed prologue, the extracted content unmodified, the fixed closing
sequence and the fixed print statement, concatenated; in particular it
begins with the fixed prologue and ends with the fixed print statement. -/
theorem output_file_shape (s : FSState) (content : List Char)
    (hok : extract s.input = .ok content) :
    ∃ out, runOnce s = (⟨s.input, some out⟩, none) ∧
      out = fixedPrologue ++ content ++ fixedClosing ++ fixedPrintStmt ∧
      (∃ t, out = fixedPrologue ++ t) ∧
      (∃ t, out = t ++ fixedPrintStmt) := by
  refine ⟨outputText content, ?_, rfl, ?_, ?_⟩
  · simp only [runOnce, hok]
  · exact ⟨content ++ fixedClosing ++ fixedPrintStmt,
      by simp [outputText, List.append_assoc]⟩
  · exact ⟨fixedPrologue ++ content ++ fixedClosing, rfl⟩

/-- C2 witness at a concrete input. -/
theorem output_file_shape_w :
    ∃ out, runOnce ⟨"const js = `q`".data, none⟩ =
        (⟨"const js = `q`".data, some out⟩, none) ∧
      out = fixedPrologue ++ "q".data ++ fixedClosing ++ fixedPrintStmt ∧
      (∃ t, out = fixedPrologue ++ t) ∧
      (∃ t, out = t ++ fixedPrintStmt) :=
  output_file_shape ⟨"const js = `q`".data, none⟩ ("q".data) rfl

/-- C3: when the marker does not occur in the input text, the run fails
with the marker-not-found error, its diagnostic message, and the
file-system state is unchanged (no output file written). -/
theorem marker_missing_no_output (data : List Char) (o : Option (List Char))
    (hno : ∀ pre suf, data ≠ pre ++ markerS ++ suf) :
    runOnce ⟨data, o⟩ = (⟨data, o⟩, some .markerNotFound) ∧
      ExtractError.message .markerNotFound = "substring not found" := by
  have hf : findSub markerS data = none := by
    cases hf : findSub markerS data with
    | none => rfl
    | some i =>
      obtain ⟨pre, suf, hsplit, -, -⟩ := findSub_some_spec markerS data i hf
      exact absurd hsplit (hno pre suf)
  exact ⟨by simp only [runOnce, extract, hf], rfl⟩

/-- C3 witness at a concrete input. -/
theorem marker_missing_no_output_w :
    runOnce ⟨"hello".data, none⟩ = (⟨"hello".data, none⟩, some .markerNotFound) ∧
      ExtractError.message .markerNotFound = "substring not found" :=
  marker_missing_no_output ("hello".data) none
    (findSub_none_spec markerS ("hello".data) rfl)

/-- C4: when the marker is present but no unescaped backtick follows it
before end of input, the run fails with the delimiter-not-found error, its
diagnostic message, and the file-system state is unchanged. -/
theorem delimiter_missing_no_output (data : List Char) (o : Option (List Char))
    (i : Nat) (hi : findSub markerS data = some i)
    (hno : ∀ p q, data.drop (i + markerS.length) = p ++ backtick :: q →
      escAfter p false = true) :
    runOnce ⟨data, o⟩ = (⟨data, o⟩, some .delimiterNotFound) ∧
      ExtractError.message .delimiterNotFound = "No closing backtick found" := by
  have hs : scan (data.drop (i + markerS.length)) false = none :=
    scan_none_of _ _ hno
  exact ⟨by simp only [runOnce, extract, hi, hs], rfl⟩

/-- C4 witness at a concrete input. -/
theorem delimiter_missing_no_output_w :
    runOnce ⟨"const js = `abc".data, none⟩ =
      (⟨"const js = `abc".data, none⟩, some .delimiterNotFound) ∧
      ExtractError.message .delimiterNotFound = "No closing backtick found" :=
  delimiter_missing_no_output ("const js = `abc".data) none 0 rfl
    (no_backtick_no_split _ (by decide))

/-- C5: each backslash toggles the escape flag, so after a run of
consecutive backslashes the flag is set iff the run length is odd; hence a
backtick preceded by an even run of backslashes terminates the scan and
one preceded by an odd run does not. -/
theorem escape_toggle_run (n : Nat) (rest : List Char) :
    escAfter (List.replicate n backslash) false = decide (n % 2 = 1) ∧
    scan (List.replicate n backslash ++ backtick :: rest) false =
      (if n % 2 = 0 then some (List.replicate n backslash)
       else (scan rest false).map
         (fun t => List.replicate n backslash ++ backtick :: t)) := by
  have h1 : escAfter (List.replicate n backslash) false = decide (n % 2 = 1) := by
    rw [escAfter_replicate]
    rcases Nat.mod_two_eq_zero_or_one n with hm | hm <;> simp [hm]
  refine ⟨h1, ?_⟩
  rw [scan_replicate, h1]
  rcases Nat.mod_two_eq_zero_or_one n with hm | hm
  · have h2 : decide (n % 2 = 1) = false := by simp [hm]
    have hscan : scan (backtick :: rest) false = some [] := by
      simp only [scan]
      rw [if_neg (by decide), if_pos (by decide)]
    rw [h2, hscan, if_pos hm]
    simp
  · have h2 : decide (n % 2 = 1) = true := by simp [hm]
    have hscan : scan (backtick :: rest) true =
        (scan rest false).map (fun t => backtick :: t) := by
      simp only [scan]
      rw [if_neg (by decide), if_neg (by simp)]
    rw [h2, hscan, if_neg (by omega), Option.map_map]
    rfl

/-- C6: when the scan succeeds the returned content is a verbatim initial
segment of the scanned region followed by the terminating unescaped
backtick: escape backslashes are kept literally, nothing is stripped or
rewritten. -/
theorem content_verbatim (s : List Char) (e : Bool) (c : List Char)
    (h : scan s e = some c) :
    ∃ rest, s = c ++ backtick :: rest ∧ escAfter c e = false := by
  obtain ⟨⟨rest, hr⟩, hesc, -⟩ := scan_sound s e c h
  exact ⟨rest, hr, hesc⟩

/-- C6 witness: the escaped-delimiter example keeps the backslash. -/
theorem content_verbatim_w :
    ∃ rest, "a\\`b`xy".data = "a\\`b".data ++ backtick :: rest ∧
      escAfter "a\\`b".data false = false :=
  content_verbatim ("a\\`b`xy".data) false ("a\\`b".data) rfl

/-- C7 counterexample: the claim that the escape flag is cleared before the
delimiter check is performed contradicts the code: on input backslash
followed by backtick, a clear-before-check scan terminates at the backtick
while the code's scan reaches end of input and fails. -/
theorem clear_before_check_diverges :
    scanClearFirst "\\`".data false = some "\\".data ∧
    scan "\\`".data false = none ∧
    scanClearFirst "\\`".data false ≠ scan "\\`".data false := by decide

/-- C7 amended: for a non-backslash character the delimiter check is
performed with the incoming escape flag, the flag being cleared only
afterwards for the following character, so a set escape flag suppresses
delimiter recognition for exactly that one next character. -/
theorem delimiter_check_uses_incoming_flag (ch : Char) (rest : List Char)
    (e : Bool) (hch : ch ≠ backslash) :
    scan (ch :: rest) e =
      if ch = backtick ∧ e = false then some []
      else (scan rest false).map (fun t => ch :: t) := by
  simp only [scan, if_neg hch]

/-- C7 amended witness at a concrete input. -/
theorem delimiter_check_uses_incoming_flag_w :
    scan (backtick :: "x`".data) true =
      if backtick = backtick ∧ true = false then some []
      else (scan "x`".data false).map (fun t => backtick :: t) :=
  delimiter_check_uses_incoming_flag backtick ("x`".data) true (by decide)

/-- C8: the run is a pure deterministic function of the input file text:
a successful run leaves the input unchanged, and running again from the
resulting state produces the identical result (byte-identical output). -/
theorem run_deterministic_idempotent (s : FSState)
    (h : (runOnce s).2 = none) :
    runOnce ((runOnce s).1) = runOnce s ∧ ((runOnce s).1).input = s.input := by
  cases hex : extract s.input with
  | error e =>
    have hr : runOnce s = (s, some e) := by simp only [runOnce, hex]
    rw [hr] at h
    exact absurd h (by simp)
  | ok c =>
    have hr : runOnce s = (⟨s.input, some (outputText c)⟩, none) := by
      simp only [runOnce, hex]
    rw [hr]
    exact ⟨by simp only [runOnce, hex], rfl⟩

/-- C8 witness at a concrete input. -/
theorem run_deterministic_idempotent_w :
    runOnce ((runOnce ⟨"const js = `x`".data, none⟩).1) =
        runOnce ⟨"const js = `x`".data, none⟩ ∧
      ((runOnce ⟨"const js = `x`".data, none⟩).1).input = "const js = `x`".data :=
  run_deterministic_idempotent ⟨"const js = `x`".data, none⟩ rfl

/-- C9: when the character immediately following the marker is an
unescaped backtick, extraction succeeds with empty content and the output
file is still written: fixed prologue immediately followed by the fixed
closing sequence and print statement. -/
theorem empty_extraction_output (data : List Char) (o : Option (List Char))
    (i : Nat) (rest : List Char)
    (hi : findSub markerS data = some i)
    (hd : data.drop (i + markerS.length) = backtick :: rest) :
    runOnce ⟨data, o⟩ = (⟨data, some (outputText [])⟩, none) ∧
      outputText [] = fixedPrologue ++ fixedClosing ++ fixedPrintStmt := by
  have hscan : scan (data.drop (i + markerS.length)) false = some [] := by
    rw [hd]
    simp only [scan]
    rw [if_neg (by decide), if_pos (by decide)]
  exact ⟨by simp only [runOnce, extract, hi, hscan], by simp [outputText]⟩

/-- C9 witness at a concrete input. -/
theorem empty_extraction_output_w :
    runOnce ⟨"const js = ``".data, none⟩ =
      (⟨"const js = ``".data, some (outputText [])⟩, none) ∧
      outputText [] = fixedPrologue ++ fixedClosing ++ fixedPrintStmt :=
  empty_extraction_output ("const js = ``".data) none 0 [] rfl (by decide)

/-- C10: every backtick strictly inside the extracted content sits at a
position where the toggle-computed escape flag is set; the content is
followed in the input by an unescaped backtick and is the shortest prefix
ending at a clear-flag backtick. -/
theorem scan_first_unescaped_minimal (s : List Char) (e : Bool) (c : List Char)
    (h : scan s e = some c) :
    (∀ p q, c = p ++ backtick :: q → escAfter p e = true) ∧
    (∃ rest, s = c ++ backtick :: rest ∧ escAfter c e = false) ∧
    (∀ p r2, s = p ++ backtick :: r2 → escAfter p e = false →
      c.length ≤ p.length) := by
  obtain ⟨⟨rest, hr⟩, hesc, hin⟩ := scan_sound s e c h
  exact ⟨hin, ⟨rest, hr, hesc⟩, scan_min s e c h⟩

/-- C10 witness at a concrete input. -/
theorem scan_first_unescaped_minimal_w :
    (∀ p q, "q".data = p ++ backtick :: q → escAfter p false = true) ∧
    (∃ rest, "q`z`".data = "q".data ++ backtick :: rest ∧
      escAfter "q".data false = false) ∧
    (∀ p r2, "q`z`".data = p ++ backtick :: r2 → escAfter p false = false →
      ("q".data).length ≤ p.length) :=
  scan_first_unescaped_minimal ("q`z`".data) false ("q".data) rfl
